import Mathlib

/-!
Shallow embedding of the nvproton core (game detection, game database,
profile resolution) and proofs of the specification's claims about it.

Conventions of the embedding:
* filesystem paths are strings; the filesystem itself, where behaviour
  depends on it, is an explicit parameter (`String → Bool` for existence,
  `String → Option (List Nat)` for readable byte content);
* Rust `HashMap`/serde-yaml `Mapping` values are association lists with
  key-replacing insertion (`alInsert`); iteration order of `HashMap` is
  unspecified in Rust, so claims are stated through key lookup;
* machine integers (`u64` timestamps, file sizes) are `Nat`, scores (`i32`)
  are `Int`; no arithmetic here approaches the overflow range.
-/

namespace NvProton

/-- Association-list lookup by string key: first entry wins, mirroring
`HashMap::get` / `Mapping::get` on their unique-key representations. -/
def alFind {α : Type} (m : List (String × α)) (k : String) : Option α :=
  (m.find? (fun p => p.1 == k)).map (fun p => p.2)

/-- Association-list insert: replace the value at the first matching key in
place (keeping the stored key and its position), else append — the
behaviour of `HashMap::insert` and serde-yaml `Mapping::insert` /
`Entry::or_insert_with` on unique-key maps. -/
def alInsert {α : Type} : List (String × α) → String → α → List (String × α)
  | [], k, v => [(k, v)]
  | (k', v') :: rest, k, v =>
    if k' == k then (k', v) :: rest else (k', v') :: alInsert rest k v

/-- Rust `char::to_lowercase` restricted to ASCII, which covers every
string this code lowercases (file and directory names are compared
against ASCII pattern lists). -/
def lowerChar (c : Char) : Char :=
  if 65 ≤ c.toNat && c.toNat ≤ 90 then Char.ofNat (c.toNat + 32) else c

/-- Rust `str::to_lowercase` (ASCII). -/
def strLower (s : String) : String := String.mk (s.toList.map lowerChar)

/-- Rust `str::starts_with`. -/
def strStartsWith (s pat : String) : Bool := pat.toList.isPrefixOf s.toList

/-- Rust `str::ends_with`. -/
def strEndsWith (s pat : String) : Bool := pat.toList.isSuffixOf s.toList

/-- Rust `str::split(sep)` on a single-character separator. -/
def splitOnChar (sep : Char) : List Char → List (List Char)
  | [] => [[]]
  | c :: rest =>
    if c == sep then [] :: splitOnChar sep rest
    else
      match splitOnChar sep rest with
      | [] => [[c]]
      | piece :: pieces => (c :: piece) :: pieces

/-- serde-yaml `Value`, shallowly embedded: every non-mapping variant
(null, bool, number, string, sequence) is collapsed into an opaque
`scalar` payload, because `merge_mapping` in `src/profile/manager.rs`
distinguishes only `Value::Mapping` from everything else. Mapping keys in
the profiles of this repository are strings. -/
inductive YamlValue where
  | scalar : Nat → YamlValue
  | mapping : List (String × YamlValue) → YamlValue

abbrev Mapping := List (String × YamlValue)

/-- `mapFind`/`mapInsert`: the `Mapping` operations used by
`merge_mapping` (`entry`, `or_insert_with`, `insert`). -/
def mapFind (m : Mapping) (k : String) : Option YamlValue := alFind m k

def mapInsert (m : Mapping) (k : String) (v : YamlValue) : Mapping :=
  alInsert m k v

mutual
/-- `merge_mapping` from `src/profile/manager.rs` lines 91-109: fold the
source's entries left to right into the target. -/
def mergeMapping (target : Mapping) : Mapping → Mapping
  | [] => target
  | (k, v) :: rest => mergeMapping (mergeEntry target k v) rest
termination_by m => sizeOf m

/-- One iteration of the `for (key, value) in source` loop of
`merge_mapping`: a nested mapping is merged recursively into the existing
mapping at that key (`entry(..).or_insert_with(Mapping::new)` then
`merge_mapping`), a non-mapping existing value is overwritten by the
child mapping, and a non-mapping source value is inserted directly. -/
def mergeEntry (target : Mapping) (k : String) : YamlValue → Mapping
  | .mapping child =>
    (match mapFind target k with
     | some (.mapping existing) => mapInsert target k (.mapping (mergeMapping existing child))
     | some (.scalar _) => mapInsert target k (.mapping child)
     | none => mapInsert target k (.mapping (mergeMapping [] child)))
  | .scalar n => mapInsert target k (.scalar n)
termination_by v => sizeOf v
end

/-- `ProfileDocument` from `src/profile/model.rs`; `extends_` stands for
the Rust field `extends` (a Lean keyword). -/
structure ProfileDocument where
  name : String
  extends_ : Option String
  settings : Mapping

/-- `ResolvedProfile` from `src/profile/model.rs`. -/
structure ResolvedProfile where
  name : String
  settings : YamlValue

/-- The profile directory, embedded as a name-keyed store;
`ProfileManager::load` failures (missing file, parse error) are collapsed
into `notFound`. -/
abbrev ProfileStore := List (String × ProfileDocument)

def loadDoc (store : ProfileStore) (name : String) : Option ProfileDocument :=
  alFind store name

inductive ResolveError where
  | cycleDetected : String → ResolveError
  | notFound : String → ResolveError
  | outOfFuel : ResolveError
deriving DecidableEq, Repr

/-- The fold at the end of `ProfileManager::resolve`: merge the collected
chain in reverse (ancestor-most first) into an empty mapping. -/
def flattenChain (chain : List (String × ProfileDocument)) : Mapping :=
  chain.reverse.foldl (fun merged p => mergeMapping merged p.2.settings) []

/-- The `while let Some(current_name) = cursor` walk of
`ProfileManager::resolve`, with explicit fuel standing in for the loop's
(unbounded) iteration; `resolve` supplies fuel that is proved sufficient,
so `outOfFuel` is unreachable. At each step: fail on a name already in the
chain, load the document, follow `extends`, append to the chain. -/
def resolveGo (store : ProfileStore) :
    Nat → List (String × ProfileDocument) → Option String →
      Except ResolveError (List (String × ProfileDocument))
  | _, chain, none => .ok chain
  | 0, _, some _ => .error .outOfFuel
  | fuel + 1, chain, some n =>
    if chain.any (fun p => p.1 == n) then .error (.cycleDetected n)
    else
      match loadDoc store n with
      | none => .error (.notFound n)
      | some doc => resolveGo store fuel (chain ++ [(n, doc)]) doc.extends_

/-- `ProfileManager::resolve`, lines 65-84 of `src/profile/manager.rs`. -/
def resolve (store : ProfileStore) (name : String) :
    Except ResolveError ResolvedProfile :=
  (resolveGo store (store.length + 1) [] (some name)).map
    (fun chain => { name := name, settings := .mapping (flattenChain chain) })

/-- `GameSource` from `src/detection/mod.rs`. -/
inductive GameSource where
  | Steam | Heroic | Lutris | Unknown
deriving DecidableEq, Repr

/-- The `Display` impl for `GameSource` in `src/detection/mod.rs`. -/
def GameSource.display : GameSource → String
  | .Steam => "steam"
  | .Heroic => "heroic"
  | .Lutris => "lutris"
  | .Unknown => "unknown"

/-- `DetectedGame` from `src/detection/mod.rs`; `metadata` is a
`HashMap String String` embedded as an association list. -/
structure DetectedGame where
  source : GameSource
  id : String
  name : String
  install_dir : String
  executable : Option String
  fingerprint : Option String
  metadata : List (String × String)
deriving DecidableEq, Repr

/-- `GameRecord` from `src/detection/database.rs`. -/
structure GameRecord where
  source : GameSource
  name : String
  install_dir : String
  executable : Option String
  fingerprint : Option String
  last_seen : Nat
  metadata : List (String × String)
  profile : Option String
deriving DecidableEq, Repr

/-- The `entries` map of `GameDatabase`. -/
abbrev GameDB := List (String × GameRecord)

def dbFind (db : GameDB) (k : String) : Option GameRecord := alFind db k

/-- `game_key` from `src/detection/database.rs` line 141:
`format!("{}:{}", game.source, game.id)`. -/
def game_key (g : DetectedGame) : String :=
  g.source.display ++ ":" ++ g.id

/-- `HashMap::extend`: insert every pair of the update, overwriting. -/
def extendMeta (base upd : List (String × String)) : List (String × String) :=
  upd.foldl (fun acc p => alInsert acc p.1 p.2) base

/-- The record built by the `or_insert_with` closure in `merge_detected`. -/
def freshRecord (g : DetectedGame) (ts : Nat) : GameRecord :=
  { source := g.source, name := g.name, install_dir := g.install_dir,
    executable := g.executable, fingerprint := g.fingerprint,
    last_seen := ts, metadata := g.metadata, profile := none }

/-- The field updates applied to the entry after `or_insert_with` in
`merge_detected` (lines 75-79 of `src/detection/database.rs`). -/
def applyDetected (r : GameRecord) (g : DetectedGame) (ts : Nat) : GameRecord :=
  { r with install_dir := g.install_dir,
           executable := g.executable,
           fingerprint := g.fingerprint.or r.fingerprint,
           last_seen := ts,
           metadata := extendMeta r.metadata g.metadata }

/-- One iteration of the `for game in games` loop of `merge_detected`. -/
def mergeOneGame (db : GameDB) (g : DetectedGame) (ts : Nat) : GameDB :=
  let base := match dbFind db (game_key g) with
    | some r => r
    | none => freshRecord g ts
  alInsert db (game_key g) (applyDetected base g ts)

/-- `GameDatabase::merge_detected` (lines 60-81 of
`src/detection/database.rs`). -/
def merge_detected (db : GameDB) (games : List DetectedGame) (ts : Nat) : GameDB :=
  games.foldl (fun d g => mergeOneGame d g ts) db

/-- `record_to_detected` from `src/detection/database.rs`. -/
def record_to_detected (id : String) (r : GameRecord) : DetectedGame :=
  { source := r.source, id := id, name := r.name, install_dir := r.install_dir,
    executable := r.executable, fingerprint := r.fingerprint,
    metadata := r.metadata }

/-- The match condition of `GameDatabase::get`:
`key.ends_with(&format!(":{}", game_id)) || key == game_id`. -/
def keyMatches (key game_id : String) : Bool :=
  strEndsWith key (":" ++ game_id) || key == game_id

/-- `GameDatabase::get` (lines 84-92 of `src/detection/database.rs`):
linear scan, first matching key wins. -/
def dbGet (db : GameDB) (game_id : String) : Option DetectedGame :=
  (db.find? (fun p => keyMatches p.1 game_id)).map
    (fun p => record_to_detected game_id p.2)

/-- `EXCLUDED_APPIDS` from `src/detection/steam.rs` lines 134-144. -/
def EXCLUDED_APPIDS : List String :=
  ["228980", "1493710", "1628350", "1887720", "2180100", "2348590",
   "3658110", "1391110", "2805730"]

/-- `is_excluded_appid` from `src/detection/steam.rs`. -/
def is_excluded_appid (appid : String) : Bool :=
  EXCLUDED_APPIDS.contains appid

/-- `key.split(':').nth(1).unwrap_or(key)`: the bare id of a database
key. -/
def bareId (key : String) : String :=
  String.mk (((splitOnChar ':' key.toList).drop 1).headD key.toList)

/-- The retain condition of `cleanup_excluded`, negated: an entry is
removed exactly when its record's source is Steam and its bare id is
excluded. -/
def excludedEntry (p : String × GameRecord) : Bool :=
  p.2.source == GameSource.Steam && is_excluded_appid (bareId p.1)

/-- `GameDatabase::cleanup_excluded` (lines 107-118 of
`src/detection/database.rs`): retain the non-excluded entries and return
them with the removed count (`before - after`). -/
def cleanup_excluded (db : GameDB) : GameDB × Nat :=
  let kept := db.filter (fun p => !excludedEntry p)
  (kept, db.length - kept.length)

/-- `fingerprint_file` from `src/detection/fingerprint.rs`, over an
abstract byte filesystem (`none` means the file cannot be opened or fully
read — the chunked-read loop's open and read failures are collapsed into
one) and an abstract digest function standing for the streamed SHA-256
computation (the claimed properties concern only its error behaviour, not
the digest values). -/
def fingerprint_file (fs : String → Option (List Nat)) (digest : List Nat → String)
    (path : String) : Except String String :=
  match fs path with
  | none => .error ("failed to open or read executable for fingerprinting at " ++ path)
  | some bytes => .ok (digest bytes)

/-- The fingerprint call-site pattern shared by all three detectors
(`src/detection/steam.rs` lines 48-54, `heroic.rs` lines 75-81,
`lutris.rs`): when fingerprinting is requested, compute on the resolved
executable and discard any error with `.ok()`. -/
def callSiteFingerprint (fpOf : String → Except String String)
    (include_fingerprint : Bool) (executable : Option String) : Option String :=
  if include_fingerprint then
    executable.bind (fun exe => (fpOf exe).toOption)
  else none

/-- `PathBuf::push` / `Path::join`: an absolute second component replaces
the base path. -/
def pathJoin (base segment : String) : String :=
  if strStartsWith segment "/" then segment else base ++ "/" ++ segment

/-- A Heroic library entry, after serde deserialization
(`src/detection/heroic.rs` lines 132-148); `#[serde(default)]` fields keep
their `Option`/emptiness structure. -/
structure HeroicGame where
  identifier : String
  title : String
  app_name : Option String
  install_path : Option String
  executable : Option String
  platform : Option String
  launch_options : Option String
deriving DecidableEq, Repr

/-- `locate_executable_hint` from `src/detection/heroic.rs` lines
102-111. -/
def locate_executable_hint (install_dir : String) (hint : Option String) :
    Option String :=
  match hint with
  | some h => if h.isEmpty then none else some (pathJoin install_dir h)
  | none => none

/-- The executable computation of `parse_library_file` (lines 69-74 of
`src/detection/heroic.rs`): declared path, `or_else` the hint, then
`filter(|p| p.exists())`. -/
def heroicExecutable (fsExists : String → Bool) (install_dir : String)
    (declared : Option String) (launch_options : Option String) : Option String :=
  (declared.or (locate_executable_hint install_dir launch_options)).filter fsExists

/-- The identity computation of `parse_library_file` (lines 55-63):
`identifier` if non-empty, else `app_name` whenever the field is present,
else `title` if non-empty, else skip (`none`). -/
def heroicIdentifier (e : HeroicGame) : Option String :=
  if !e.identifier.isEmpty then some e.identifier
  else
    match e.app_name with
    | some a => some a
    | none => if !e.title.isEmpty then some e.title else none

/-- The per-entry body of the `for entry in games.games` loop of
`parse_library_file` (lines 50-98 of `src/detection/heroic.rs`), over an
abstract existence predicate and fingerprint function. -/
def parseHeroicEntry (fsExists : String → Bool)
    (fpOf : String → Except String String) (include_fingerprint : Bool)
    (e : HeroicGame) : Option DetectedGame :=
  match e.install_path with
  | none => none
  | some install_dir =>
    match heroicIdentifier e with
    | none => none
    | some ident =>
      let display_name := if e.title.isEmpty then ident else e.title
      let executable := heroicExecutable fsExists install_dir e.executable e.launch_options
      let fingerprint_value := callSiteFingerprint fpOf include_fingerprint executable
      let metadata :=
        (match e.app_name with | some a => [("app_name", a)] | none => []) ++
        (match e.platform with | some p => [("platform", p)] | none => [])
      some { source := .Heroic, id := ident, name := display_name,
             install_dir := install_dir, executable := executable,
             fingerprint := fingerprint_value, metadata := metadata }

/-- The per-game record constructor of `SteamDetector::detect` (lines
43-67 of `src/detection/steam.rs`), from a parsed manifest's fields and
the already-located executable. -/
def steamDetectedGame (fpOf : String → Except String String)
    (include_fingerprint : Bool) (appid name : String) (install_dir : String)
    (executable : Option String) (metadata : List (String × String)) :
    DetectedGame :=
  { source := .Steam, id := appid, name := name, install_dir := install_dir,
    executable := executable,
    fingerprint := callSiteFingerprint fpOf include_fingerprint executable,
    metadata := metadata }

/-- The per-row record constructor of `LutrisDetector::detect`
(`src/detection/lutris.rs`): executable is the install directory joined
with the declared relative path, when one is present. -/
def lutrisDetectedGame (fpOf : String → Except String String)
    (include_fingerprint : Bool) (slug name directory : String)
    (exe : Option String) (runner : Option String) : DetectedGame :=
  let executable := exe.map (pathJoin directory)
  { source := .Lutris, id := slug, name := name, install_dir := directory,
    executable := executable,
    fingerprint := callSiteFingerprint fpOf include_fingerprint executable,
    metadata := match runner with | some r => [("runner", r)] | none => [] }

/-- A file under the install directory as seen by the `WalkDir`
enumeration of `locate_primary_executable`: its path relative to the
install directory (components, the last one being the file name) and its
size in bytes (the `metadata.len()` the scorer reads; files at depth 0 of
the install root have one component). -/
structure FsFile where
  relComponents : List String
  size : Nat
deriving DecidableEq, Repr

def fileName (f : FsFile) : String := f.relComponents.getLastD ""

/-- Rust `str::contains` (substring containment): some suffix of `s`
starts with `pat`. -/
def strContains (s pat : String) : Bool :=
  (List.range (s.toList.length + 1)).any
    (fun i => pat.toList.isPrefixOf (s.toList.drop i))

/-- Rust `Path::file_stem` and `Path::extension` on a file name: split at
the final dot, except that a leading-dot-only name has no extension. -/
def splitName (name : String) : String × String :=
  match splitOnChar '.' name.toList with
  | [] => (name, "")
  | [_] => (name, "")
  | [[], _] => (name, "")
  | parts =>
    (String.mk (List.intercalate ['.'] parts.dropLast),
     String.mk (parts.getLastD []))

/-- `SKIP_PATTERNS` from `is_launcher_or_tool`
(`src/detection/steam.rs` lines 200-229). -/
def SKIP_PATTERNS : List String :=
  ["unins", "uninst", "setup", "install", "update", "patch", "crash",
   "reporter", "helper", "service", "launcher", "easyanticheat", "battleye",
   "dxsetup", "vcredist", "dotnet", "directx", "physx", "ue4prereq",
   "redist", "cef", "subprocess", "browser", "webhelper", "upc", "uplay",
   "origin", "epic"]

/-- `is_launcher_or_tool` from `src/detection/steam.rs`: the (already
lowercased) file name contains any skip pattern. -/
def is_launcher_or_tool (filename : String) : Bool :=
  SKIP_PATTERNS.any (fun pat => strContains filename pat)

/-- The name-match condition awarding +50 in `score_executable`:
`dirname.contains(&exe_stem) || exe_stem.contains(&dirname.replace(" ", ""))`
on the lowercased names. -/
def nameMatchBonus (dirName fname : String) : Bool :=
  let dirname := strLower dirName
  let exe_stem := strLower (splitName fname).1
  strContains dirname exe_stem ||
    strContains exe_stem (String.mk (dirname.toList.filter (fun c => !(c == ' '))))

/-- `score_executable` from `src/detection/steam.rs` lines 240-307, with
the install directory abstracted to its base name and the file to its
relative path and size (`path.metadata()` is assumed readable — its `Err`
branch merely skips the size adjustments). -/
def score_executable (f : FsFile) (dirName : String) : Int :=
  let filename := strLower (fileName f)
  let depth := f.relComponents.length
  let parent_name := f.relComponents.dropLast.getLastD ""
  let s1 : Int := if nameMatchBonus dirName (fileName f) then 50 else 0
  let s2 : Int :=
    if depth ≤ 1 then 30
    else if depth == 2 &&
        (parent_name == "bin" || parent_name == "Binaries" || parent_name == "x64")
      then 25 else 0
  let s3 : Int :=
    if strEndsWith filename "-win64-shipping.exe" || strEndsWith filename "_win64.exe"
      then 20 else 0
  let s4 : Int := if strContains filename "game" || strContains filename "client" then 10 else 0
  let s5 : Int := if strContains filename "server" && !strContains filename "dedicated" then -10 else 0
  let s6 : Int := if f.size < 1000000 then -20 else if f.size > 50000000 then 15 else 0
  s1 + s2 + s3 + s4 + s5 + s6

/-- The head of the stable descending sort in
`locate_primary_executable`: the earliest candidate of maximal score
(later candidates replace the current best only on a strictly greater
score, matching stable `sort_by` with `b_score.cmp(&a_score)`). -/
def pickBest (dirName : String) : List FsFile → Option FsFile
  | [] => none
  | f :: rest =>
    some (rest.foldl
      (fun best g =>
        if score_executable g dirName > score_executable best dirName then g else best)
      f)

/-- The candidate filter of `locate_primary_executable` (lines 158-186 of
`src/detection/steam.rs`): extension lowercases to `exe` and the
lowercased file name is not a launcher/tool. -/
def exeCandidate (f : FsFile) : Bool :=
  strLower (splitName (fileName f)).2 == "exe" &&
  !is_launcher_or_tool (strLower (fileName f))

/-- `locate_primary_executable` (lines 150-196 of
`src/detection/steam.rs`) over the enumerated file list of an install
directory with the given base name. -/
def locate_primary_executable (dirName : String) (files : List FsFile) :
    Option FsFile :=
  pickBest dirName (files.filter exeCandidate)

/-- The value stored at key `k` after `mergeEntry target k v`, read off
the branches of the `for (key, value) in source` loop body. -/
def mergeValue (t : Mapping) (k : String) : YamlValue → YamlValue
  | .mapping child =>
    match mapFind t k with
    | some (.mapping existing) => .mapping (mergeMapping existing child)
    | some (.scalar _) => .mapping child
    | none => .mapping (mergeMapping [] child)
  | .scalar n => .scalar n

/-- The spec's two-profile store: `A` has no parent and settings
`{x: 1, y: {a: 1}}`; `B` extends `A` with settings `{y: {b: 2}}`. -/
def profileStoreAB : ProfileStore :=
  [("A", { name := "A", extends_ := none,
           settings := [("x", .scalar 1), ("y", .mapping [("a", .scalar 1)])] }),
   ("B", { name := "B", extends_ := some "A",
           settings := [("y", .mapping [("b", .scalar 2)])] })]

/-- The self-extending store of the spec's cycle test: profile `C`
extends `C`. -/
def profileStoreC : ProfileStore :=
  [("C", { name := "C", extends_ := some "C", settings := [] })]

/-- The executable rule exactly as the claim states it: the declared path
when present and extant; otherwise (including a declared but non-existent
path) the install directory joined with a non-empty launch-options hint;
otherwise absent. Written from the claim's words, to be compared with
`heroicExecutable` from the code. -/
def claimedHeroicExecutable (fsExists : String → Bool) (install_dir : String)
    (declared : Option String) (launch_options : Option String) : Option String :=
  match declared with
  | some p =>
    if fsExists p then some p
    else
      match launch_options with
      | some h => if h.isEmpty then none else some (pathJoin install_dir h)
      | none => none
  | none =>
    match launch_options with
    | some h => if h.isEmpty then none else some (pathJoin install_dir h)
    | none => none

/-- The executable rule the code actually implements, in spec words: the
declared path when present and it exists; when no path is declared, the
install-directory-joined hint when the hint is non-empty and that joined
path exists; otherwise absent. -/
def amendedHeroicExecutable (fsExists : String → Bool) (install_dir : String)
    (declared : Option String) (launch_options : Option String) : Option String :=
  match declared with
  | some p => if fsExists p then some p else none
  | none =>
    match launch_options with
    | some h =>
      if h.isEmpty then none
      else if fsExists (pathJoin install_dir h) then some (pathJoin install_dir h)
      else none
    | none => none

/-- The identity rule exactly as the claim states it: the first non-empty
of `identifier`, `app_name`, `title`, in that order. Written from the
claim's words, to be compared with `heroicIdentifier` from the code. -/
def claimedHeroicIdentity (e : HeroicGame) : Option String :=
  if !e.identifier.isEmpty then some e.identifier
  else if !(e.app_name.getD "").isEmpty then e.app_name
  else if !e.title.isEmpty then some e.title
  else none

/-- The identity rule the code actually implements, in spec words:
`identifier` if non-empty; else `app_name` whenever that field is present,
even when its value is the empty string; else `title` if non-empty; else
the entry is skipped. -/
def amendedHeroicIdentity (e : HeroicGame) : Option String :=
  if !e.identifier.isEmpty then some e.identifier
  else
    match e.app_name with
    | some a => some a
    | none => if !e.title.isEmpty then some e.title else none

/-- A filesystem on which only the hint-joined path `d/h` exists. -/
def fsOnlyHint : String → Bool := fun s => s == "d/h"

/-- A fingerprint function that always fails with an I/O error. -/
def fpAlwaysFail : String → Except String String := fun _ => .error "io error"

/-- Heroic entry with a declared but non-existent executable and a
non-empty launch-options hint. -/
def heroicEntryC6 : HeroicGame :=
  { identifier := "g", title := "g", app_name := none, install_path := some "d",
    executable := some "p", platform := none, launch_options := some "h" }

/-- Heroic entry with an empty identifier, an app_name field present but
holding the empty string, and a non-empty title. -/
def heroicEntryC7 : HeroicGame :=
  { identifier := "", title := "T", app_name := some "", install_path := some "d",
    executable := none, platform := none, launch_options := none }

/-- Heroic entry with a declared executable that exists. -/
def heroicEntryOk : HeroicGame :=
  { identifier := "g", title := "g", app_name := none, install_path := some "d",
    executable := some "p", platform := none, launch_options := none }

/-- The filesystem on which the declared path `p` exists. -/
def fsDeclared : String → Bool := fun s => s == "p"

/-- The game `parseHeroicEntry fsDeclared fpAlwaysFail false heroicEntryOk`
produces. -/
def heroicGameOk : DetectedGame :=
  { source := .Heroic, id := "g", name := "g", install_dir := "d",
    executable := some "p", fingerprint := none, metadata := [] }

/-! ## Association-list lemmas -/

theorem alFind_nil {α : Type} (k : String) : alFind ([] : List (String × α)) k = none := rfl

theorem alFind_cons {α : Type} (a : String) (b : α) (tl : List (String × α)) (k : String) :
    alFind ((a, b) :: tl) k = if a == k then some b else alFind tl k := by
  by_cases h : a == k <;> simp [alFind, List.find?_cons, h]

theorem alFind_eq_none_of_not_mem {α : Type} (m : List (String × α)) (k : String)
    (h : k ∉ m.map Prod.fst) : alFind m k = none := by
  induction m with
  | nil => rfl
  | cons hd tl ih =>
    obtain ⟨a, b⟩ := hd
    rw [List.map_cons, List.mem_cons] at h
    push_neg at h
    rw [alFind_cons]
    have hb : (a == k) = false := beq_eq_false_iff_ne.mpr (fun hc => h.1 hc.symm)
    simp [hb, ih h.2]

theorem alFind_alInsert {α : Type} (m : List (String × α)) (k k₁ : String) (v : α) :
    alFind (alInsert m k v) k₁ = if k₁ = k then some v else alFind m k₁ := by
  induction m with
  | nil =>
    have h1 : alInsert ([] : List (String × α)) k v = [(k, v)] := rfl
    rw [h1, alFind_cons, alFind_nil]
    by_cases h : k₁ = k
    · subst h; simp
    · have h2 : (k == k₁) = false := beq_eq_false_iff_ne.mpr (fun hc => h hc.symm)
      simp [h2, h]
  | cons hd tl ih =>
    obtain ⟨a, b⟩ := hd
    by_cases hak : a = k
    · subst hak
      have h1 : alInsert ((a, b) :: tl) a v = (a, v) :: tl := by simp [alInsert]
      rw [h1, alFind_cons, alFind_cons]
      by_cases h : a == k₁
      · have h' : k₁ = a := by
          have := beq_iff_eq.mp h
          exact this.symm
        simp [h, h']
      · have h' : ¬(k₁ = a) := fun hc => by
          rw [hc] at h
          exact h (beq_self_eq_true a)
        simp [h, h']
    · have hb : (a == k) = false := beq_eq_false_iff_ne.mpr hak
      have h1 : alInsert ((a, b) :: tl) k v = (a, b) :: alInsert tl k v := by
        simp [alInsert, hb]
      rw [h1, alFind_cons, ih, alFind_cons]
      by_cases h : a == k₁
      · have h' : a = k₁ := beq_iff_eq.mp h
        subst h'
        simp [h, hak]
      · simp [h]

theorem mem_fst_alInsert {α : Type} (m : List (String × α)) (k a : String) (v : α)
    (h : a ∈ (alInsert m k v).map Prod.fst) : a ∈ m.map Prod.fst ∨ a = k := by
  induction m with
  | nil =>
    right
    have h1 : alInsert ([] : List (String × α)) k v = [(k, v)] := rfl
    rw [h1, List.map_cons] at h
    simpa using h
  | cons hd tl ih =>
    obtain ⟨b, c⟩ := hd
    by_cases hbk : (b == k) = true
    · have h1 : alInsert ((b, c) :: tl) k v = (b, v) :: tl := by simp [alInsert, hbk]
      rw [h1, List.map_cons, List.mem_cons] at h
      left
      rw [List.map_cons, List.mem_cons]
      exact h
    · have h1 : alInsert ((b, c) :: tl) k v = (b, c) :: alInsert tl k v := by
        simp [alInsert, hbk]
      rw [h1, List.map_cons, List.mem_cons] at h
      rcases h with h | h
      · left
        rw [List.map_cons, List.mem_cons]
        exact Or.inl h
      · rcases ih h with h' | h'
        · left
          rw [List.map_cons, List.mem_cons]
          exact Or.inr h'
        · right
          exact h'

theorem nodup_fst_alInsert {α : Type} (m : List (String × α)) (k : String) (v : α)
    (h : (m.map Prod.fst).Nodup) : ((alInsert m k v).map Prod.fst).Nodup := by
  induction m with
  | nil => simp [alInsert]
  | cons hd tl ih =>
    obtain ⟨b, c⟩ := hd
    rw [List.map_cons, List.nodup_cons] at h
    by_cases hbk : (b == k) = true
    · have h1 : alInsert ((b, c) :: tl) k v = (b, v) :: tl := by simp [alInsert, hbk]
      rw [h1, List.map_cons, List.nodup_cons]
      exact h
    · have hbk' : b ≠ k := by simpa using hbk
      have h1 : alInsert ((b, c) :: tl) k v = (b, c) :: alInsert tl k v := by
        simp [alInsert, hbk]
      rw [h1, List.map_cons, List.nodup_cons]
      refine ⟨fun hmem => ?_, ih h.2⟩
      rcases mem_fst_alInsert tl k b v hmem with h' | h'
      · exact h.1 h'
      · exact hbk' h'

/-! ## Deep-merge lemmas (profile resolution) -/

theorem mergeEntry_eq (t : Mapping) (k : String) (v : YamlValue) :
    mergeEntry t k v = mapInsert t k (mergeValue t k v) := by
  cases v with
  | scalar n => simp [mergeEntry, mergeValue]
  | mapping child =>
    cases hf : mapFind t k with
    | none => simp [mergeEntry, mergeValue, hf]
    | some w => cases w <;> simp [mergeEntry, mergeValue, hf]

theorem mapFind_mergeEntry (t : Mapping) (k' k : String) (v : YamlValue) :
    mapFind (mergeEntry t k' v) k =
      if k = k' then some (mergeValue t k' v) else mapFind t k := by
  rw [mergeEntry_eq]
  exact alFind_alInsert t k' k (mergeValue t k' v)

theorem mapFind_nil (k : String) : mapFind [] k = none := rfl

theorem mapFind_cons (a : String) (b : YamlValue) (tl : Mapping) (k : String) :
    mapFind ((a, b) :: tl) k = if a == k then some b else mapFind tl k :=
  alFind_cons a b tl k

/-- Key-level characterization of `merge_mapping`: an ancestor key absent
from the descendant survives, a non-mapping descendant value overwrites,
and two nested mappings merge recursively. -/
theorem mergeMapping_lookup (s : Mapping) :
    ∀ (t : Mapping) (k : String), (s.map Prod.fst).Nodup →
      (mapFind s k = none → mapFind (mergeMapping t s) k = mapFind t k)
    ∧ (∀ n, mapFind s k = some (.scalar n) →
        mapFind (mergeMapping t s) k = some (.scalar n))
    ∧ (∀ c ex, mapFind s k = some (.mapping c) → mapFind t k = some (.mapping ex) →
        mapFind (mergeMapping t s) k = some (.mapping (mergeMapping ex c))) := by
  induction s with
  | nil =>
    intro t k _
    refine ⟨fun _ => by simp [mergeMapping], fun n hn => ?_, fun c ex hc _ => ?_⟩
    · rw [mapFind_nil] at hn; cases hn
    · rw [mapFind_nil] at hc; cases hc
  | cons hd rest ih =>
    obtain ⟨k', v'⟩ := hd
    intro t k hnd
    rw [List.map_cons, List.nodup_cons] at hnd
    have hstep : mergeMapping t ((k', v') :: rest) =
        mergeMapping (mergeEntry t k' v') rest := by
      simp [mergeMapping]
    by_cases hkk : k = k'
    · have hbk : (k' == k) = true := beq_iff_eq.mpr hkk.symm
      have hfs : mapFind ((k', v') :: rest) k = some v' := by
        rw [mapFind_cons, hbk]
        simp
      have hknotin : k ∉ rest.map Prod.fst := hkk ▸ hnd.1
      have hrest : mapFind rest k = none := alFind_eq_none_of_not_mem rest k hknotin
      have h1 := (ih (mergeEntry t k' v') k hnd.2).1 hrest
      rw [hstep]
      refine ⟨fun hnone => ?_, fun n hn => ?_, fun c ex hc ht => ?_⟩
      · rw [hfs] at hnone; cases hnone
      · rw [hfs] at hn
        injection hn with hv
        subst hv
        rw [h1, mapFind_mergeEntry]
        simp [hkk, mergeValue]
      · rw [hfs] at hc
        injection hc with hv
        subst hv
        have ht' : mapFind t k' = some (.mapping ex) := hkk ▸ ht
        rw [h1, mapFind_mergeEntry]
        simp [hkk, mergeValue, ht']
    · have hbk : (k' == k) = false := beq_eq_false_iff_ne.mpr (fun h => hkk h.symm)
      have hfs : mapFind ((k', v') :: rest) k = mapFind rest k := by
        rw [mapFind_cons, hbk]
        simp
      have hte : mapFind (mergeEntry t k' v') k = mapFind t k := by
        rw [mapFind_mergeEntry]
        simp [hkk]
      obtain ⟨ih1, ih2, ih3⟩ := ih (mergeEntry t k' v') k hnd.2
      rw [hstep]
      refine ⟨fun h => ?_, fun n h => ?_, fun c ex hc ht => ?_⟩
      · rw [hfs] at h
        rw [ih1 h, hte]
      · rw [hfs] at h
        exact ih2 n h
      · rw [hfs] at hc
        rw [← hte] at ht
        exact ih3 c ex hc ht

/-- C1: resolving `B` over `profileStoreAB` yields
`{x: 1, y: {a: 1, b: 2}}`, and in general the inheritance fold's deep
merge preserves ancestor keys absent from the descendant, lets a
descendant non-mapping value overwrite, and merges two nested mappings
recursively — so the result holds the union of all ancestors' keys not
overridden by a descendant. -/
theorem profile_resolution_deep_merge :
    (resolve profileStoreAB "B" =
      .ok { name := "B",
            settings := .mapping
              [("x", .scalar 1),
               ("y", .mapping [("a", .scalar 1), ("b", .scalar 2)])] })
  ∧ (∀ (t s : Mapping) (k : String), (s.map Prod.fst).Nodup →
      (mapFind s k = none → mapFind (mergeMapping t s) k = mapFind t k)
    ∧ (∀ n, mapFind s k = some (.scalar n) →
        mapFind (mergeMapping t s) k = some (.scalar n))
    ∧ (∀ c ex, mapFind s k = some (.mapping c) → mapFind t k = some (.mapping ex) →
        mapFind (mergeMapping t s) k = some (.mapping (mergeMapping ex c)))) := by
  constructor
  · simp [resolve, resolveGo, loadDoc, alFind, flattenChain, mergeMapping, mergeEntry,
          mapFind, mapInsert, alInsert, profileStoreAB, List.find?, Except.map]
  · intro t s k h
    exact mergeMapping_lookup s t k h

/-- Witness for C1: the deep-merge characterization applied at a concrete
target, source and key. -/
theorem profile_resolution_deep_merge_witness :
    mapFind (mergeMapping [("p", .scalar 0)] [("q", .scalar 1)]) "q" =
      some (.scalar 1) :=
  (profile_resolution_deep_merge.2
    [("p", .scalar 0)] [("q", .scalar 1)] "q" (by decide)).2.1 1 rfl

/-! ## Resolve termination and cycle detection (C2) -/

theorem resolveGo_ne_outOfFuel (store : ProfileStore) :
    ∀ (fuel : Nat) (chain : List (String × ProfileDocument)) (cursor : Option String),
      (chain.map Prod.fst).Nodup →
      (∀ n ∈ chain.map Prod.fst, n ∈ store.map Prod.fst) →
      store.length + 1 ≤ fuel + chain.length →
      resolveGo store fuel chain cursor ≠ .error .outOfFuel := by
  intro fuel
  induction fuel with
  | zero =>
    intro chain cursor hnd hsub hlen
    cases cursor with
    | none => simp [resolveGo]
    | some n =>
      exfalso
      have h1 : (chain.map Prod.fst).length ≤ (store.map Prod.fst).length :=
        (List.subperm_of_subset hnd (fun x hx => hsub x hx)).length_le
      rw [List.length_map, List.length_map] at h1
      omega
  | succ f ih =>
    intro chain cursor hnd hsub hlen
    cases cursor with
    | none => simp [resolveGo]
    | some n =>
      rw [resolveGo]
      by_cases hc : chain.any (fun p => p.1 == n)
      · simp [hc]
      · rw [if_neg hc]
        cases hl : loadDoc store n with
        | none => simp
        | some doc =>
          simp only []
          have hnotin : n ∉ chain.map Prod.fst := by
            intro hmem
            apply hc
            rw [List.any_eq_true]
            rcases List.mem_map.mp hmem with ⟨p, hp, hpn⟩
            exact ⟨p, hp, beq_iff_eq.mpr hpn⟩
          have hmemstore : n ∈ store.map Prod.fst := by
            rcases Option.map_eq_some'.mp hl with ⟨p, hfind, _⟩
            have hp := List.find?_some hfind
            have hpm := List.mem_of_find?_eq_some hfind
            exact List.mem_map.mpr ⟨p, hpm, beq_iff_eq.mp hp⟩
          apply ih
          · rw [List.map_append, List.map_cons]
            simp only [List.map_nil]
            rw [List.nodup_append]
            refine ⟨hnd, List.nodup_singleton n, ?_⟩
            intro a ha hb
            rw [List.mem_singleton] at hb
            exact hnotin (hb ▸ ha)
          · intro a ha
            rw [List.map_append, List.map_cons, List.map_nil, List.mem_append,
              List.mem_singleton] at ha
            rcases ha with ha | ha
            · exact hsub a ha
            · exact ha ▸ hmemstore
          · rw [List.length_append, List.length_singleton]
            omega

/-- C2: `resolve` never exhausts its fuel (the walk terminates on every
store), a step whose current name already appears in the chain fails
immediately with `cycleDetected`, and a self-extending profile resolves
to `cycleDetected` in particular. -/
theorem resolve_terminates_cycle_detection (store : ProfileStore) (name : String) :
    resolve store name ≠ .error .outOfFuel
  ∧ (∀ (fuel : Nat) (chain : List (String × ProfileDocument)) (n : String),
      n ∈ chain.map Prod.fst →
      resolveGo store (fuel + 1) chain (some n) = .error (.cycleDetected n))
  ∧ (∀ doc, loadDoc store name = some doc → doc.extends_ = some name →
      resolve store name = .error (.cycleDetected name)) := by
  refine ⟨?_, ?_, ?_⟩
  · intro h
    have hgo := resolveGo_ne_outOfFuel store (store.length + 1) [] (some name)
      (by simp) (by simp) (by simp)
    rw [resolve] at h
    cases hr : resolveGo store (store.length + 1) [] (some name) with
    | ok chain => rw [hr] at h; cases h
    | error e =>
      rw [hr] at h
      simp only [Except.map] at h
      injection h with he
      exact hgo (he ▸ hr)
  · intro fuel chain n hmem
    rw [resolveGo]
    have hc : chain.any (fun p => p.1 == n) = true := by
      rw [List.any_eq_true]
      rcases List.mem_map.mp hmem with ⟨p, hp, hpn⟩
      exact ⟨p, hp, beq_iff_eq.mpr hpn⟩
    rw [if_pos hc]
  · intro doc hload hext
    have hstep1 : resolveGo store (store.length + 1) [] (some name) =
        resolveGo store store.length ([] ++ [(name, doc)]) doc.extends_ := by
      have hc0 : ¬((([] : List (String × ProfileDocument)).any fun p => p.1 == name) = true) := by
        simp
      rw [resolveGo, if_neg hc0]
      cases hl2 : loadDoc store name with
      | none => rw [hload] at hl2; cases hl2
      | some d =>
        rw [hload] at hl2
        injection hl2 with hd
        subst hd
        rfl
    rw [resolve, hstep1, hext]
    cases hs : store with
    | nil =>
      rw [hs] at hload
      cases hload
    | cons p ps =>
      have hl3 : (p :: ps).length = ps.length + 1 := rfl
      rw [hl3]
      have hc1 : (([] ++ [(name, doc)]).any (fun q => q.1 == name)) = true := by simp
      rw [resolveGo, if_pos hc1]
      rfl

/-- Witness for C2: resolving the self-extending profile `C` fails with
`cycleDetected`, and resolution over that store does not exhaust fuel. -/
theorem resolve_terminates_cycle_detection_witness :
    resolve profileStoreC "C" = .error (.cycleDetected "C")
  ∧ resolve profileStoreC "C" ≠ .error .outOfFuel :=
  ⟨(resolve_terminates_cycle_detection profileStoreC "C").2.2
      { name := "C", extends_ := some "C", settings := [] } rfl rfl,
   (resolve_terminates_cycle_detection profileStoreC "C").1⟩

/-! ## Game-database merge lemmas (C3, C10) -/

theorem merge_detected_nil (db : GameDB) (ts : Nat) :
    merge_detected db [] ts = db := rfl

theorem merge_detected_cons (db : GameDB) (g : DetectedGame)
    (gs : List DetectedGame) (ts : Nat) :
    merge_detected db (g :: gs) ts = merge_detected (mergeOneGame db g ts) gs ts := rfl

theorem dbFind_mergeOneGame (db : GameDB) (g : DetectedGame) (ts : Nat) (k : String) :
    dbFind (mergeOneGame db g ts) k =
      if k = game_key g then
        some (applyDetected
          (match dbFind db (game_key g) with
           | some r => r
           | none => freshRecord g ts) g ts)
      else dbFind db k :=
  alFind_alInsert db (game_key g) k _

theorem dbFind_isSome_merge (games : List DetectedGame) :
    ∀ (db : GameDB) (ts : Nat) (k : String),
      (dbFind db k).isSome = true →
      (dbFind (merge_detected db games ts) k).isSome = true := by
  induction games with
  | nil => intro db ts k h; exact h
  | cons g gs ih =>
    intro db ts k h
    rw [merge_detected_cons]
    apply ih
    rw [dbFind_mergeOneGame]
    by_cases hk : k = game_key g
    · simp [hk]
    · simpa [hk] using h

theorem merge_stays_or_stamped (games : List DetectedGame) :
    ∀ (db : GameDB) (ts : Nat) (k : String) (r : GameRecord),
      dbFind db k = some r →
      ∃ r', dbFind (merge_detected db games ts) k = some r' ∧
        (r' = r ∨ r'.last_seen = ts) := by
  induction games with
  | nil => intro db ts k r h; exact ⟨r, h, Or.inl rfl⟩
  | cons g gs ih =>
    intro db ts k r h
    rw [merge_detected_cons]
    by_cases hk : k = game_key g
    · have h2 : dbFind (mergeOneGame db g ts) k =
          some (applyDetected
            (match dbFind db (game_key g) with
             | some r => r
             | none => freshRecord g ts) g ts) := by
        rw [dbFind_mergeOneGame, if_pos hk]
      rcases ih (mergeOneGame db g ts) ts k _ h2 with ⟨r', hr', hcase⟩
      refine ⟨r', hr', ?_⟩
      rcases hcase with hcase | hcase
      · right
        rw [hcase]
        rfl
      · right
        exact hcase
    · have h2 : dbFind (mergeOneGame db g ts) k = some r := by
        rw [dbFind_mergeOneGame, if_neg hk]
        exact h
      exact ih (mergeOneGame db g ts) ts k r h2

theorem merge_last_seen (games : List DetectedGame) :
    ∀ (db : GameDB) (ts : Nat) (g : DetectedGame), g ∈ games →
      ∃ r, dbFind (merge_detected db games ts) (game_key g) = some r ∧
        r.last_seen = ts := by
  induction games with
  | nil => intro db ts g h; cases h
  | cons g0 gs ih =>
    intro db ts g h
    rw [merge_detected_cons]
    rcases List.mem_cons.mp h with h | h
    · subst h
      have h2 : dbFind (mergeOneGame db g ts) (game_key g) =
          some (applyDetected
            (match dbFind db (game_key g) with
             | some r => r
             | none => freshRecord g ts) g ts) := by
        rw [dbFind_mergeOneGame, if_pos rfl]
      rcases merge_stays_or_stamped gs (mergeOneGame db g ts) ts (game_key g) _ h2
        with ⟨r', hr', hcase⟩
      refine ⟨r', hr', ?_⟩
      rcases hcase with hcase | hcase
      · rw [hcase]
        rfl
      · exact hcase
    · exact ih (mergeOneGame db g0 ts) ts g h

theorem merge_fingerprint_sticky (games : List DetectedGame) :
    ∀ (db : GameDB) (ts : Nat) (k : String) (r r' : GameRecord),
      dbFind db k = some r → r.fingerprint.isSome = true →
      dbFind (merge_detected db games ts) k = some r' →
      r'.fingerprint.isSome = true := by
  induction games with
  | nil =>
    intro db ts k r r' h hfp h'
    rw [merge_detected_nil] at h'
    rw [h] at h'
    injection h' with hr
    exact hr ▸ hfp
  | cons g gs ih =>
    intro db ts k r r' h hfp h'
    rw [merge_detected_cons] at h'
    by_cases hk : k = game_key g
    · have hbase : dbFind db (game_key g) = some r := hk ▸ h
      have h2 : dbFind (mergeOneGame db g ts) k =
          some (applyDetected r g ts) := by
        rw [dbFind_mergeOneGame, if_pos hk, hbase]
      have hfp2 : (applyDetected r g ts).fingerprint.isSome = true := by
        show (g.fingerprint.or r.fingerprint).isSome = true
        cases g.fingerprint with
        | none => simpa [Option.or] using hfp
        | some v => rfl
      exact ih (mergeOneGame db g ts) ts k _ r' h2 hfp2 h'
    · have h2 : dbFind (mergeOneGame db g ts) k = some r := by
        rw [dbFind_mergeOneGame, if_neg hk]
        exact h
      exact ih (mergeOneGame db g ts) ts k r r' h2 hfp h'

theorem merge_nodup (games : List DetectedGame) :
    ∀ (db : GameDB) (ts : Nat), (db.map Prod.fst).Nodup →
      ((merge_detected db games ts).map Prod.fst).Nodup := by
  induction games with
  | nil => intro db ts h; exact h
  | cons g gs ih =>
    intro db ts h
    rw [merge_detected_cons]
    exact ih (mergeOneGame db g ts) ts (nodup_fst_alInsert db (game_key g) _ h)

theorem merge_frame (games : List DetectedGame) :
    ∀ (db : GameDB) (ts : Nat) (k : String) (r : GameRecord),
      dbFind db k = some r →
      ∃ r', dbFind (merge_detected db games ts) k = some r' ∧
        r'.profile = r.profile ∧ r'.name = r.name := by
  induction games with
  | nil => intro db ts k r h; exact ⟨r, h, rfl, rfl⟩
  | cons g gs ih =>
    intro db ts k r h
    rw [merge_detected_cons]
    by_cases hk : k = game_key g
    · have hbase : dbFind db (game_key g) = some r := hk ▸ h
      have h2 : dbFind (mergeOneGame db g ts) k =
          some (applyDetected r g ts) := by
        rw [dbFind_mergeOneGame, if_pos hk, hbase]
      rcases ih (mergeOneGame db g ts) ts k _ h2 with ⟨r', hr', hp, hn⟩
      exact ⟨r', hr', hp, hn⟩
    · have h2 : dbFind (mergeOneGame db g ts) k = some r := by
        rw [dbFind_mergeOneGame, if_neg hk]
        exact h
      exact ih (mergeOneGame db g ts) ts k r h2

/-- C3: merging the same detections twice with timestamps t1 < t2 leaves
one record per distinct (source, id) key (key-uniqueness is preserved and
each detected game's key is present), that record's last_seen is t2, and
a fingerprint present after the first merge is never downgraded to absent
by the second. -/
theorem merge_detected_twice_spec (db : GameDB) (games : List DetectedGame)
    (t1 t2 : Nat) (hts : t1 < t2) (hnd : (db.map Prod.fst).Nodup) :
    (((merge_detected (merge_detected db games t1) games t2).map Prod.fst).Nodup)
  ∧ (∀ g ∈ games, ∃ r,
      dbFind (merge_detected (merge_detected db games t1) games t2) (game_key g)
        = some r ∧ r.last_seen = t2)
  ∧ (∀ (k : String) (r r' : GameRecord),
      dbFind (merge_detected db games t1) k = some r →
      r.fingerprint.isSome = true →
      dbFind (merge_detected (merge_detected db games t1) games t2) k = some r' →
      r'.fingerprint.isSome = true) := by
  refine ⟨?_, ?_, ?_⟩
  · exact merge_nodup games (merge_detected db games t1) t2
      (merge_nodup games db t1 hnd)
  · intro g hg
    exact merge_last_seen games (merge_detected db games t1) t2 g hg
  · intro k r r' h hfp h'
    exact merge_fingerprint_sticky games (merge_detected db games t1) t2 k r r' h hfp h'

/-- Witness for C3: merging one concrete detection at t1 = 1 then t2 = 2
leaves its key mapped to a record whose last_seen is 2. -/
theorem merge_detected_twice_spec_witness :
    ∃ r, dbFind
        (merge_detected
          (merge_detected []
            [{ source := .Steam, id := "42", name := "G", install_dir := "d",
               executable := none, fingerprint := some "f", metadata := [] }] 1)
          [{ source := .Steam, id := "42", name := "G", install_dir := "d",
             executable := none, fingerprint := some "f", metadata := [] }] 2)
        (game_key { source := .Steam, id := "42", name := "G", install_dir := "d",
                    executable := none, fingerprint := some "f", metadata := [] })
      = some r ∧ r.last_seen = 2 :=
  (merge_detected_twice_spec []
    [{ source := .Steam, id := "42", name := "G", install_dir := "d",
       executable := none, fingerprint := some "f", metadata := [] }]
    1 2 (by decide) (by decide)).2.1 _ (List.mem_singleton.mpr rfl)

/-- C10: `merge_detected` removes no entry — every key present before is
present after — and a pre-existing record's profile and name fields are
unchanged by the merge. -/
theorem merge_detected_preserves_entries (db : GameDB) (games : List DetectedGame)
    (ts : Nat) (k : String) (r : GameRecord) (h : dbFind db k = some r) :
    ∃ r', dbFind (merge_detected db games ts) k = some r' ∧
      r'.profile = r.profile ∧ r'.name = r.name :=
  merge_frame games db ts k r h

/-- Witness for C10: a concrete pre-existing record keeps its profile and
name across a merge that updates it. -/
theorem merge_detected_preserves_entries_witness :
    ∃ r', dbFind
        (merge_detected
          [("steam:42",
            { source := .Steam, name := "G", install_dir := "d",
              executable := none, fingerprint := none, last_seen := 1,
              metadata := [], profile := some "perf" })]
          [{ source := .Steam, id := "42", name := "H", install_dir := "e",
             executable := none, fingerprint := none, metadata := [] }] 2)
        "steam:42" = some r' ∧
      r'.profile = some "perf" ∧ r'.name = "G" :=
  merge_detected_preserves_entries
    [("steam:42",
      { source := .Steam, name := "G", install_dir := "d",
        executable := none, fingerprint := none, last_seen := 1,
        metadata := [], profile := some "perf" })]
    [{ source := .Steam, id := "42", name := "H", install_dir := "e",
       executable := none, fingerprint := none, metadata := [] }]
    2 "steam:42" _ rfl

/-! ## Lookup and cleanup (C4, C5) -/

/-- C4: `get(q)` succeeds exactly when some stored key equals `q` or ends
with `":" ++ q`; in particular, with a record stored under
`"steam:1245620"`, both the bare-id query `"1245620"` and the full-key
query `"steam:1245620"` succeed. -/
theorem dbGet_match_spec :
    (∀ (db : GameDB) (q : String),
      (dbGet db q).isSome = true ↔
        ∃ p ∈ db, p.1 = q ∨ strEndsWith p.1 (":" ++ q) = true)
  ∧ (∀ r : GameRecord,
      (dbGet [("steam:1245620", r)] "1245620").isSome = true
    ∧ (dbGet [("steam:1245620", r)] "steam:1245620").isSome = true) := by
  constructor
  · intro db q
    have hmapsome : ∀ o : Option (String × GameRecord),
        ((o.map (fun p => record_to_detected q p.2)).isSome) = o.isSome := by
      intro o
      cases o <;> rfl
    rw [show dbGet db q =
        (db.find? (fun p => keyMatches p.1 q)).map
          (fun p => record_to_detected q p.2) from rfl]
    rw [hmapsome]
    rw [List.find?_isSome]
    constructor
    · rintro ⟨x, hx, hpx⟩
      refine ⟨x, hx, ?_⟩
      rw [keyMatches, Bool.or_eq_true] at hpx
      rcases hpx with hpx | hpx
      · right
        exact hpx
      · left
        exact beq_iff_eq.mp hpx
    · rintro ⟨x, hx, hor⟩
      refine ⟨x, hx, ?_⟩
      rw [keyMatches, Bool.or_eq_true]
      rcases hor with h | h
      · right
        exact beq_iff_eq.mpr h
      · left
        exact h
  · intro r
    exact ⟨rfl, rfl⟩

theorem length_filter_add_length_filter_neg {α : Type} (p : α → Bool) (l : List α) :
    (l.filter p).length + (l.filter (fun a => !p a)).length = l.length := by
  induction l with
  | nil => rfl
  | cons a tl ih =>
    cases h : p a <;> simp [List.filter_cons, h] <;> omega

/-- C5: `cleanup_excluded` keeps exactly the entries that are not
Steam-sourced with an excluded bare AppID, returns the number of removed
records, and a second run removes nothing and returns 0. -/
theorem cleanup_excluded_spec (db : GameDB) :
    (∀ p : String × GameRecord, p ∈ (cleanup_excluded db).1 ↔
      p ∈ db ∧
        ¬(p.2.source = GameSource.Steam ∧ is_excluded_appid (bareId p.1) = true))
  ∧ (cleanup_excluded db).2 = (db.filter excludedEntry).length
  ∧ cleanup_excluded (cleanup_excluded db).1 = ((cleanup_excluded db).1, 0) := by
  have hfst : (cleanup_excluded db).1 = db.filter (fun p => !excludedEntry p) := rfl
  refine ⟨?_, ?_, ?_⟩
  · intro p
    rw [hfst, List.mem_filter]
    constructor
    · rintro ⟨hmem, hp⟩
      refine ⟨hmem, ?_⟩
      rintro ⟨hs, he⟩
      rw [Bool.not_eq_true'] at hp
      rw [excludedEntry, hs, he] at hp
      simp at hp
    · rintro ⟨hmem, hnot⟩
      refine ⟨hmem, ?_⟩
      rw [Bool.not_eq_true']
      cases h : excludedEntry p with
      | false => rfl
      | true =>
        exfalso
        rw [excludedEntry, Bool.and_eq_true] at h
        exact hnot ⟨beq_iff_eq.mp h.1, h.2⟩
  · have hsnd : (cleanup_excluded db).2 =
        db.length - (db.filter (fun p => !excludedEntry p)).length := rfl
    rw [hsnd]
    have h := length_filter_add_length_filter_neg excludedEntry db
    omega
  · have hkept : ((cleanup_excluded db).1.filter (fun p => !excludedEntry p)) =
        (cleanup_excluded db).1 :=
      List.filter_eq_self.mpr (fun a ha => by
        rw [hfst] at ha
        exact (List.mem_filter.mp ha).2)
    show ((cleanup_excluded db).1.filter (fun p => !excludedEntry p),
          (cleanup_excluded db).1.length -
            ((cleanup_excluded db).1.filter (fun p => !excludedEntry p)).length) = _
    rw [hkept, Nat.sub_self]

/-! ## Heroic executable resolution (C6) -/

theorem heroicExecutable_eq_amended (fsExists : String → Bool) (d : String)
    (declared : Option String) (hint : Option String) :
    heroicExecutable fsExists d declared hint =
      amendedHeroicExecutable fsExists d declared hint := by
  cases declared with
  | some p =>
    cases hfs : fsExists p <;>
      simp [heroicExecutable, amendedHeroicExecutable, Option.or, Option.filter, hfs]
  | none =>
    cases hint with
    | none => rfl
    | some h =>
      cases he : h.isEmpty with
      | true =>
        simp [heroicExecutable, amendedHeroicExecutable, locate_executable_hint,
          Option.or, Option.filter, he]
      | false =>
        cases hfs : fsExists (pathJoin d h) <;>
          simp [heroicExecutable, amendedHeroicExecutable, locate_executable_hint,
            Option.or, Option.filter, he, hfs]

/-- Counterexample to C6 as stated: on `heroicEntryC6` (declared but
non-existent executable, non-empty hint whose joined path exists) the
code yields no executable, while the claim's rule yields the joined hint
path `d/h`. -/
theorem heroic_executable_counterexample :
    (parseHeroicEntry fsOnlyHint fpAlwaysFail false heroicEntryC6).map
        DetectedGame.executable = some none
  ∧ claimedHeroicExecutable fsOnlyHint "d"
      heroicEntryC6.executable heroicEntryC6.launch_options = some "d/h"
  ∧ (parseHeroicEntry fsOnlyHint fpAlwaysFail false heroicEntryC6).map
        DetectedGame.executable ≠
      some (claimedHeroicExecutable fsOnlyHint "d"
        heroicEntryC6.executable heroicEntryC6.launch_options) := by
  exact ⟨by decide, by decide, by decide⟩

/-- C6 as amended: for every surviving Heroic entry, the executable is
the declared path when present and extant (with no hint fallback when the
declared path does not exist), else — only when no path is declared — the
joined hint path when the hint is non-empty and the joined path exists,
else absent. -/
theorem heroic_executable_amended (fsExists : String → Bool)
    (fpOf : String → Except String String) (incl : Bool) (e : HeroicGame)
    (g : DetectedGame) (h : parseHeroicEntry fsExists fpOf incl e = some g) :
    ∃ d, e.install_path = some d ∧
      g.executable = amendedHeroicExecutable fsExists d e.executable e.launch_options := by
  unfold parseHeroicEntry at h
  cases hip : e.install_path with
  | none =>
    rw [hip] at h
    cases h
  | some d =>
    rw [hip] at h
    cases hid : heroicIdentifier e with
    | none =>
      rw [hid] at h
      cases h
    | some ident =>
      rw [hid] at h
      refine ⟨d, rfl, ?_⟩
      injection h with hg
      rw [← hg]
      exact heroicExecutable_eq_amended fsExists d e.executable e.launch_options

/-- Witness for C6 (amended): a concrete entry whose declared executable
exists parses to a game whose executable is the amended rule's value. -/
theorem heroic_executable_amended_witness :
    ∃ d, heroicEntryOk.install_path = some d ∧
      heroicGameOk.executable =
        amendedHeroicExecutable fsDeclared d heroicEntryOk.executable
          heroicEntryOk.launch_options :=
  heroic_executable_amended fsDeclared fpAlwaysFail false heroicEntryOk heroicGameOk
    (by decide)

/-! ## Heroic identity priority (C7) -/

/-- Counterexample to C7 as stated: on `heroicEntryC7` (empty identifier,
app_name present but empty, non-empty title) the code takes the empty
app_name as the identity instead of the first non-empty field `title`,
and does not skip the entry. -/
theorem heroic_identity_counterexample :
    (parseHeroicEntry fsOnlyHint fpAlwaysFail false heroicEntryC7).map
        DetectedGame.id = some ""
  ∧ claimedHeroicIdentity heroicEntryC7 = some "T"
  ∧ (parseHeroicEntry fsOnlyHint fpAlwaysFail false heroicEntryC7).map
        DetectedGame.id ≠ claimedHeroicIdentity heroicEntryC7 := by
  exact ⟨by decide, by decide, by decide⟩

/-- C7 as amended: an entry without an install path is skipped; the
identity of a surviving entry is its identifier if non-empty, else its
app_name whenever that field is present (even when empty), else its title
if non-empty; an entry with empty identifier, absent app_name and empty
title is skipped. -/
theorem heroic_identity_amended (fsExists : String → Bool)
    (fpOf : String → Except String String) (incl : Bool) (e : HeroicGame) :
    (e.install_path = none → parseHeroicEntry fsExists fpOf incl e = none)
  ∧ (∀ g, parseHeroicEntry fsExists fpOf incl e = some g →
      amendedHeroicIdentity e = some g.id)
  ∧ (amendedHeroicIdentity e = none →
      parseHeroicEntry fsExists fpOf incl e = none) := by
  have hsame : amendedHeroicIdentity e = heroicIdentifier e := rfl
  refine ⟨fun hip => ?_, fun g h => ?_, fun hid => ?_⟩
  · unfold parseHeroicEntry
    rw [hip]
  · unfold parseHeroicEntry at h
    cases hip : e.install_path with
    | none =>
      rw [hip] at h
      cases h
    | some d =>
      rw [hip] at h
      cases hid : heroicIdentifier e with
      | none =>
        rw [hid] at h
        cases h
      | some ident =>
        rw [hid] at h
        injection h with hg
        rw [← hg, hsame, hid]
  · rw [hsame] at hid
    unfold parseHeroicEntry
    cases hip : e.install_path with
    | none => rfl
    | some d =>
      rw [hid]

/-- Witness for C7 (amended): the concrete surviving entry's identity is
the amended rule's value, and an entry with all three fields missing or
empty is skipped. -/
theorem heroic_identity_amended_witness :
    amendedHeroicIdentity heroicEntryOk = some heroicGameOk.id
  ∧ parseHeroicEntry fsDeclared fpAlwaysFail false
      { identifier := "", title := "", app_name := none, install_path := some "d",
        executable := none, platform := none, launch_options := none } = none :=
  ⟨(heroic_identity_amended fsDeclared fpAlwaysFail false heroicEntryOk).2.1
      heroicGameOk (by decide),
   (heroic_identity_amended fsDeclared fpAlwaysFail false
      { identifier := "", title := "", app_name := none, install_path := some "d",
        executable := none, platform := none, launch_options := none }).2.2 (by decide)⟩

/-! ## Executable resolver scenario (C8) -/

/-- C8: in an install directory named "Game" holding exactly the two
depth-0 files Game.exe and GameSetup.exe, the resolver returns Game.exe
(whatever the two file sizes): GameSetup.exe is discarded by the "setup"
skip pattern, and Game.exe satisfies the name-match bonus condition
against the directory name. -/
theorem resolver_prefers_game_exe (sz1 sz2 : Nat) :
    locate_primary_executable "Game"
        [{ relComponents := ["Game.exe"], size := sz1 },
         { relComponents := ["GameSetup.exe"], size := sz2 }]
      = some { relComponents := ["Game.exe"], size := sz1 }
  ∧ is_launcher_or_tool (strLower "GameSetup.exe") = true
  ∧ is_launcher_or_tool (strLower "Game.exe") = false
  ∧ nameMatchBonus "Game" "Game.exe" = true :=
  ⟨rfl, by decide, by decide, by decide⟩

/-! ## Fingerprint failure recovery (C9) -/

/-- C9: fingerprinting fails exactly when the file cannot be opened or
read; the shared call-site pattern of the three detectors swallows such a
failure into an absent fingerprint; whether a Heroic entry is detected
never depends on the fingerprint function; and the Steam and Lutris
per-game constructors yield games with no fingerprint (rather than an
error) under a failing fingerprint function. -/
theorem fingerprint_failure_recovered :
    (∀ (fs : String → Option (List Nat)) (digest : List Nat → String) (path : String),
      (∃ e, fingerprint_file fs digest path = .error e) ↔ fs path = none)
  ∧ (∀ (fpOf : String → Except String String) (incl : Bool) (exe err : String),
      fpOf exe = .error err → callSiteFingerprint fpOf incl (some exe) = none)
  ∧ (∀ (fsExists : String → Bool) (fp fp' : String → Except String String)
        (incl : Bool) (e : HeroicGame),
      (parseHeroicEntry fsExists fp incl e).isSome =
        (parseHeroicEntry fsExists fp' incl e).isSome)
  ∧ (∀ (fpOf : String → Except String String) (incl : Bool)
        (appid name dir : String) (exe : Option String)
        (md : List (String × String)) (err : String),
      (∀ q, fpOf q = .error err) →
      (steamDetectedGame fpOf incl appid name dir exe md).fingerprint = none)
  ∧ (∀ (fpOf : String → Except String String) (incl : Bool)
        (slug name dir : String) (exe : Option String) (runner : Option String)
        (err : String),
      (∀ q, fpOf q = .error err) →
      (lutrisDetectedGame fpOf incl slug name dir exe runner).fingerprint = none) := by
  have hcall : ∀ (fpOf : String → Except String String) (incl : Bool)
      (exe : Option String) (err : String), (∀ q, fpOf q = .error err) →
      callSiteFingerprint fpOf incl exe = none := by
    intro fpOf incl exe err hfail
    cases incl with
    | false => rfl
    | true =>
      cases exe with
      | none => rfl
      | some p =>
        show (fpOf p).toOption = none
        rw [hfail p]
        rfl
  refine ⟨?_, ?_, ?_, ?_, ?_⟩
  · intro fs digest path
    constructor
    · rintro ⟨e, he⟩
      cases hf : fs path with
      | none => rfl
      | some bytes =>
        rw [fingerprint_file, hf] at he
        cases he
    · intro hf
      exact ⟨_, by rw [fingerprint_file, hf]⟩
  · intro fpOf incl exe err hfail
    cases incl with
    | false => rfl
    | true =>
      show (fpOf exe).toOption = none
      rw [hfail]
      rfl
  · intro fsExists fp fp' incl e
    unfold parseHeroicEntry
    cases hip : e.install_path with
    | none => rfl
    | some d =>
      cases hid : heroicIdentifier e with
      | none => rfl
      | some ident => rfl
  · intro fpOf incl appid name dir exe md err hfail
    exact hcall fpOf incl exe err hfail
  · intro fpOf incl slug name dir exe runner err hfail
    exact hcall fpOf incl (exe.map (pathJoin dir)) err hfail

/-- Witness for C9: the always-failing fingerprint function is swallowed
to an absent fingerprint at a concrete call site, and fingerprinting on a
filesystem with no readable file fails with an error. -/
theorem fingerprint_failure_recovered_witness :
    callSiteFingerprint fpAlwaysFail true (some "x") = none
  ∧ (∃ e, fingerprint_file (fun _ => none) (fun _ => "") "x" = .error e) :=
  ⟨fingerprint_failure_recovered.2.1 fpAlwaysFail true "x" "io error" rfl,
   (fingerprint_failure_recovered.1 (fun _ => none) (fun _ => "") "x").mpr rfl⟩

end NvProton
